import Mathlib

/- Verification development for the create-peachy-app scaffolding CLI
   (src/index.js).

   The JavaScript program is shallowly embedded in Lean:

   * the package.json rewrite (lines 88-101) is modeled as a pure
     transformation on parsed JSON objects (ordered key/value lists with
     JavaScript property-assignment and delete semantics);
   * the layout patch (lines 354-368) is modeled as a pure text-to-text
     function over lists of characters, with the exact semantics of the
     regular expressions used by the source;
   * the whole pipeline (function main) is modeled as a state machine over
     an abstract target-directory state together with an environment that
     records the outcome of every external collaborator call (git, npm,
     filesystem operations). -/

set_option autoImplicit false

namespace Peachy

/-- JSON values as produced by JSON.parse.  Numbers are modeled as integers:
    no claim depends on non-integral numbers and package.json manifests use
    none. -/
inductive Json where
  | null
  | bool (b : Bool)
  | num (n : Int)
  | str (s : String)
  | arr (elems : List Json)
  | obj (fields : List (String × Json))

/-- A JSON object that a package.json parses to: ordered key/value fields.
    JSON.parse yields unique keys; none of the lemmas below need that
    assumption. -/
abbrev Manifest := List (String × Json)

/-- First value stored under key k (JavaScript property read on a parsed
    object). -/
def lookupKey (k : String) : Manifest → Option Json
  | [] => none
  | (k', v) :: rest => if k' = k then some v else lookupKey k rest

/-- Whether the object has an entry under key k. -/
def hasKey (k : String) : Manifest → Bool
  | [] => false
  | (k', _) :: rest => k' = k || hasKey k rest

/-- Replace the value stored under key k, keeping the key order. -/
def setKeyGo (k : String) (v : Json) : Manifest → Manifest
  | [] => []
  | (k', v') :: rest =>
    if k' = k then (k, v) :: setKeyGo k v rest
    else (k', v') :: setKeyGo k v rest

/-- JavaScript property assignment obj[k] = v on a plain object: if the key
    is present its value is replaced in place (key order kept), otherwise the
    new key is appended at the end. -/
def setKey (k : String) (v : Json) (kvs : Manifest) : Manifest :=
  if hasKey k kvs then setKeyGo k v kvs else kvs ++ [(k, v)]

/-- JavaScript delete obj[k]: the key is removed, every other entry is kept
    in order. -/
def delKey (k : String) : Manifest → Manifest
  | [] => []
  | (k', v') :: rest =>
    if k' = k then delKey k rest else (k', v') :: delKey k rest

/-- The package.json mutation performed by src/index.js lines 93-99, in
    source order: assign name, delete keywords, delete author, assign
    version, assign description. -/
def rewriteManifest (projectName : String) (pkg : Manifest) : Manifest :=
  setKey "description" (.str "")
    (setKey "version" (.str "0.0.0")
      (delKey "author"
        (delKey "keywords"
          (setKey "name" (.str projectName) pkg))))

theorem lookupKey_setKeyGo_self (k : String) (v : Json) (kvs : Manifest)
    (h : hasKey k kvs = true) : lookupKey k (setKeyGo k v kvs) = some v := by
  induction kvs with
  | nil => simp [hasKey] at h
  | cons p rest ih =>
    obtain ⟨k', v'⟩ := p
    by_cases hk : k' = k
    · simp [setKeyGo, hk, lookupKey]
    · simp only [hasKey, Bool.or_eq_true, decide_eq_true_eq] at h
      simp [setKeyGo, hk, lookupKey, ih (h.resolve_left hk)]

theorem lookupKey_append_self (k : String) (v : Json) (kvs : Manifest)
    (h : hasKey k kvs = false) : lookupKey k (kvs ++ [(k, v)]) = some v := by
  induction kvs with
  | nil => simp [lookupKey]
  | cons p rest ih =>
    obtain ⟨k', v'⟩ := p
    simp only [hasKey, Bool.or_eq_false_iff, decide_eq_false_iff_not] at h
    simp [lookupKey, h.1, ih h.2]

theorem lookupKey_setKey_self (k : String) (v : Json) (kvs : Manifest) :
    lookupKey k (setKey k v kvs) = some v := by
  unfold setKey
  by_cases h : hasKey k kvs = true
  · simp [h, lookupKey_setKeyGo_self k v kvs h]
  · have h' : hasKey k kvs = false := by simpa using h
    simp [h', lookupKey_append_self k v kvs h']

theorem lookupKey_setKeyGo_ne (k k' : String) (hne : k ≠ k') (v : Json)
    (kvs : Manifest) :
    lookupKey k (setKeyGo k' v kvs) = lookupKey k kvs := by
  induction kvs with
  | nil => rfl
  | cons p rest ih =>
    obtain ⟨k'', v''⟩ := p
    by_cases hk : k'' = k'
    · have h1 : ¬ k' = k := fun hx => hne hx.symm
      have h2 : ¬ k'' = k := by rw [hk]; exact h1
      simp [setKeyGo, hk, lookupKey, h1, h2, ih]
    · by_cases h2 : k'' = k
      · have h1 : ¬ k = k' := hne
        simp [setKeyGo, hk, lookupKey, h2, h1]
      · simp [setKeyGo, hk, lookupKey, h2, ih]

theorem lookupKey_setKey_ne (k k' : String) (hne : k ≠ k') (v : Json)
    (kvs : Manifest) : lookupKey k (setKey k' v kvs) = lookupKey k kvs := by
  unfold setKey
  by_cases h : hasKey k' kvs = true
  · simp [h, lookupKey_setKeyGo_ne k k' hne v kvs]
  · have h' : hasKey k' kvs = false := by simpa using h
    simp only [h', Bool.false_eq_true, if_false]
    have h1 : ¬ k' = k := fun hx => hne (Eq.symm hx)
    induction kvs with
    | nil => simp [lookupKey, h1]
    | cons p rest ih =>
      obtain ⟨k'', v''⟩ := p
      simp only [hasKey, Bool.or_eq_false_iff, decide_eq_false_iff_not] at h'
      by_cases h2 : k'' = k
      · simp [lookupKey, h2]
      · simp only [List.cons_append, lookupKey, h2, if_false]
        exact ih (by simp [hasKey, h'.2]) (by simp [hasKey, h'.2])

theorem lookupKey_delKey_self (k : String) (kvs : Manifest) :
    lookupKey k (delKey k kvs) = none := by
  induction kvs with
  | nil => rfl
  | cons p rest ih =>
    obtain ⟨k', v'⟩ := p
    by_cases hk : k' = k
    · simp [delKey, hk, ih]
    · simp [delKey, hk, lookupKey, ih]

theorem lookupKey_delKey_ne (k k' : String) (hne : k ≠ k') (kvs : Manifest) :
    lookupKey k (delKey k' kvs) = lookupKey k kvs := by
  induction kvs with
  | nil => rfl
  | cons p rest ih =>
    obtain ⟨k'', v''⟩ := p
    have h1 : ¬ k' = k := fun hx => hne (Eq.symm hx)
    by_cases hk : k'' = k'
    · have h2 : ¬ k'' = k := by rw [hk]; exact h1
      simp [delKey, hk, lookupKey, h2, h1, ih]
    · by_cases h2 : k'' = k
      · have h3 : ¬ k = k' := hne
        simp [delKey, hk, lookupKey, h2, h3]
      · simp [delKey, hk, lookupKey, h2, ih]

/-- C1.  For every template manifest that parses as a JSON object, the
    rewritten manifest (src/index.js lines 88-101) maps name to the project
    name (the basename of the resolved target path, passed in as
    projectName), version to "0.0.0", description to "", has no keywords and
    no author key, and maps every other pre-existing key to its original
    value. -/
theorem manifest_rewrite_spec (projectName : String) (pkg : Manifest) :
    lookupKey "name" (rewriteManifest projectName pkg)
        = some (.str projectName)
    ∧ lookupKey "version" (rewriteManifest projectName pkg)
        = some (.str "0.0.0")
    ∧ lookupKey "description" (rewriteManifest projectName pkg)
        = some (.str "")
    ∧ lookupKey "keywords" (rewriteManifest projectName pkg) = none
    ∧ lookupKey "author" (rewriteManifest projectName pkg) = none
    ∧ ∀ k, k ≠ "name" → k ≠ "version" → k ≠ "description" →
        k ≠ "keywords" → k ≠ "author" →
        lookupKey k (rewriteManifest projectName pkg) = lookupKey k pkg := by
  unfold rewriteManifest
  refine ⟨?_, ?_, ?_, ?_, ?_, ?_⟩
  · rw [lookupKey_setKey_ne _ _ (by decide), lookupKey_setKey_ne _ _ (by decide),
      lookupKey_delKey_ne _ _ (by decide), lookupKey_delKey_ne _ _ (by decide),
      lookupKey_setKey_self]
  · rw [lookupKey_setKey_ne _ _ (by decide), lookupKey_setKey_self]
  · rw [lookupKey_setKey_self]
  · rw [lookupKey_setKey_ne _ _ (by decide), lookupKey_setKey_ne _ _ (by decide),
      lookupKey_delKey_ne _ _ (by decide), lookupKey_delKey_self]
  · rw [lookupKey_setKey_ne _ _ (by decide), lookupKey_setKey_ne _ _ (by decide),
      lookupKey_delKey_self]
  · intro k h1 h2 h3 h4 h5
    rw [lookupKey_setKey_ne _ _ h3, lookupKey_setKey_ne _ _ h2,
      lookupKey_delKey_ne _ _ h5, lookupKey_delKey_ne _ _ h4,
      lookupKey_setKey_ne _ _ h1]

/-- Witness for C1 at a concrete template manifest: the untouched key
    "scripts" keeps its original value. -/
theorem manifest_rewrite_spec_witness :
    lookupKey "scripts"
        (rewriteManifest "my-app"
          [("name", .str "peachy"), ("version", .str "1.2.3"),
           ("keywords", .arr [.str "framework"]),
           ("author", .str "Sidmaz666"),
           ("scripts", .obj [("dev", .str "vite")])])
      = some (.obj [("dev", .str "vite")]) :=
  ((manifest_rewrite_spec "my-app"
      [("name", .str "peachy"), ("version", .str "1.2.3"),
       ("keywords", .arr [.str "framework"]),
       ("author", .str "Sidmaz666"),
       ("scripts", .obj [("dev", .str "vite")])]).2.2.2.2.2 "scripts"
    (by decide) (by decide) (by decide) (by decide) (by decide)).trans rfl

/- ===== Layout patch (src/index.js lines 354-368) =====

   The source filters out every line matched by the regular expression
   (with the JavaScript slash-delimited literal syntax) spelling
   the word import, backslash-s-plus, dot-star, (Header|Footer), then deletes every
   occurrence of the patterns Header-marker and Footer-marker, namely
   a less-than sign, the symbol name, backslash-s-star, slash and
   greater-than, from the joined text.  Text is modeled as List Char. -/

/-- ECMAScript backslash-s character class: WhiteSpace plus LineTerminator
    code points. -/
def isWsJS (c : Char) : Bool :=
  c == ' ' || c == '\t' || c == '\n' || c == '\x0b' || c == '\x0c' ||
  c == '\r' || c == '\u00A0' || c == '\u1680' ||
  (decide ('\u2000' ≤ c) && decide (c ≤ '\u200A')) ||
  c == '\u2028' || c == '\u2029' || c == '\u202F' || c == '\u205F' ||
  c == '\u3000' || c == '\uFEFF'

/-- ECMAScript dot (without the dotAll flag): every code point except the
    four LineTerminator ones. -/
def isDotJS (c : Char) : Bool :=
  !(c == '\n' || c == '\r' || c == '\u2028' || c == '\u2029')

/-- Strip a literal from the front of a string: some rest when
    s = lit ++ rest, none otherwise. -/
def takeAfterLit : List Char → List Char → Option (List Char)
  | [], s => some s
  | _ :: _, [] => none
  | p :: ps, c :: cs => if p == c then takeAfterLit ps cs else none

/-- Whether lit is a leading segment of s. -/
def startsWithL (p s : List Char) : Bool := (takeAfterLit p s).isSome

/-- Whether p occurs as a contiguous segment anywhere in the string. -/
def containsSeg (p : List Char) : List Char → Bool
  | [] => startsWithL p []
  | c :: cs => startsWithL p (c :: cs) || containsSeg p cs

def litImport : List Char := "import".toList

def litHeader : List Char := "Header".toList

def litFooter : List Char := "Footer".toList

/-- The marker pattern opener for Header: a less-than sign followed by the
    symbol name. -/
def markHeader : List Char := '<' :: litHeader

/-- The marker pattern opener for Footer. -/
def markFooter : List Char := '<' :: litFooter

/-- After the literal "import" has been consumed, the rest of the import
    regular expression: one or more backslash-s characters, then any number
    of dot characters, then the literal Header or Footer.  The two bounded
    searches enumerate every possible split, exactly the matches the
    backtracking regex engine can find. -/
def wsDotsHF (l : List Char) : Bool :=
  (List.range (l.length + 1)).any fun w =>
    decide (1 ≤ w) && (l.take w).all isWsJS &&
      ((List.range (l.length + 1)).any fun d =>
        ((l.drop w).take d).all isDotJS &&
          (startsWithL litHeader (l.drop (w + d)) ||
           startsWithL litFooter (l.drop (w + d))))

/-- Whether the import regular expression matches starting exactly here. -/
def matchImportAt (s : List Char) : Bool :=
  match takeAfterLit litImport s with
  | some rest => wsDotsHF rest
  | none => false

/-- Unanchored search for the import regular expression. -/
def scanImport : List Char → Bool
  | [] => matchImportAt []
  | c :: cs => matchImportAt (c :: cs) || scanImport cs

/-- The test the source applies to each line of the layout file. -/
def testImportLine (l : List Char) : Bool := scanImport l

/-- Try to match one marker occurrence at the current position: the opener
    nm, then greedily all backslash-s characters, then slash
    greater-than.  Greediness is exact here because the slash is not a
    whitespace character, so the whitespace run of a match is forced; on
    success the unconsumed rest of the string is returned. -/
def tryMarker (nm : List Char) (s : List Char) : Option (List Char) :=
  match takeAfterLit nm s with
  | none => none
  | some s1 =>
    match takeAfterLit ['/', '>'] (s1.dropWhile isWsJS) with
    | none => none
    | some s2 => some s2

/-- Fueled scanner equal to JavaScript String.replace with a global regex
    and the empty replacement: find non-overlapping matches left to right in
    the original text and delete them, never rescanning replaced output.
    One unit of fuel is spent per consumed character, so fuel = length is
    always enough. -/
def removeMarkersF (nm : List Char) : Nat → List Char → List Char
  | 0, s => s
  | _ + 1, [] => []
  | fuel + 1, c :: cs =>
    match tryMarker nm (c :: cs) with
    | some rest => removeMarkersF nm fuel rest
    | none => c :: removeMarkersF nm fuel cs

/-- Delete every marker occurrence of nm from the text. -/
def removeMarkers (nm : List Char) (s : List Char) : List Char :=
  removeMarkersF nm s.length s

/-- JavaScript String.split at the newline character. -/
def splitLines : List Char → List (List Char)
  | [] => [[]]
  | c :: cs =>
    if c = '\n' then [] :: splitLines cs
    else
      match splitLines cs with
      | [] => [[c]]
      | l :: ls => (c :: l) :: ls

/-- JavaScript Array.join with the newline separator. -/
def joinLines : List (List Char) → List Char
  | [] => []
  | [l] => l
  | l :: l' :: ls => l ++ '\n' :: joinLines (l' :: ls)

/-- The pure text transformation of the layout patch, exactly as the source
    orders it: split into lines, drop lines matching the import pattern,
    join, delete Header markers, delete Footer markers. -/
def patchText (s : List Char) : List Char :=
  removeMarkers markFooter
    (removeMarkers markHeader
      (joinLines ((splitLines s).filter (fun l => !testImportLine l))))

/-- Whether a marker occurrence of nm appears anywhere in the text. -/
def hasMarker (nm : List Char) : List Char → Bool
  | [] => (tryMarker nm []).isSome
  | c :: cs => (tryMarker nm (c :: cs)).isSome || hasMarker nm cs

/-- Whether the line mentions either symbol name at all. -/
def refsHF (l : List Char) : Bool :=
  containsSeg litHeader l || containsSeg litFooter l

/-- Subsequence test: the first list appears inside the second, in order. -/
def isSubseqOf : List (List Char) → List (List Char) → Bool
  | [], _ => true
  | _ :: _, [] => false
  | a :: as, b :: bs =>
    if a = b then isSubseqOf as bs else isSubseqOf (a :: as) bs

/-- Claim C2 formalized at one input: if some line of the layout text
    matches the import pattern, then after patching no line matches
    the import pattern, no Header or Footer usage marker remains, and every line
    that does not mention either symbol survives verbatim and in order. -/
def claimC2At (t : List Char) : Prop :=
  (∃ l ∈ splitLines t, testImportLine l = true) →
    (∀ l ∈ splitLines (patchText t), testImportLine l = false)
    ∧ hasMarker markHeader (patchText t) = false
    ∧ hasMarker markFooter (patchText t) = false
    ∧ isSubseqOf ((splitLines t).filter (fun l => !refsHF l))
        (splitLines (patchText t)) = true

theorem takeAfterLit_some :
    ∀ (p s r : List Char), takeAfterLit p s = some r → s = p ++ r
  | [], _, _, h => by
    simp only [takeAfterLit, Option.some.injEq] at h
    simp [h]
  | _ :: _, [], _, h => by simp [takeAfterLit] at h
  | p :: ps, c :: cs, r, h => by
    simp only [takeAfterLit] at h
    by_cases hc : (p == c) = true
    · have he : p = c := by simpa using hc
      simp only [hc, if_true] at h
      simp [he, takeAfterLit_some ps cs r h]
    · simp only [hc] at h
      simp at h

theorem containsSeg_of_startsWithL (p s : List Char)
    (h : startsWithL p s = true) : containsSeg p s = true := by
  cases s with
  | nil => simpa [containsSeg] using h
  | cons c cs => simp [containsSeg, h]

theorem containsSeg_of_drop (p : List Char) (hp : p ≠ []) :
    ∀ (s : List Char) (n : Nat),
      startsWithL p (s.drop n) = true → containsSeg p s = true := by
  intro s
  induction s with
  | nil =>
    intro n h
    rcases p with _ | ⟨p0, ps⟩
    · exact absurd rfl hp
    · simp [List.drop_nil, startsWithL, takeAfterLit] at h
  | cons c cs ih =>
    intro n h
    cases n with
    | zero => exact containsSeg_of_startsWithL p (c :: cs) h
    | succ m =>
      simp only [List.drop_succ_cons] at h
      have := ih m h
      simp [containsSeg, this]

theorem drop_append_len (p : List Char) :
    ∀ (r : List Char) (k : Nat), (p ++ r).drop (p.length + k) = r.drop k := by
  induction p with
  | nil => intro r k; simp
  | cons c ps ih =>
    intro r k
    have harith : ps.length + 1 + k = (ps.length + k) + 1 := by omega
    simp only [List.cons_append, List.length_cons, harith,
      List.drop_succ_cons]
    exact ih r k

theorem wsDotsHF_exists (l : List Char) (h : wsDotsHF l = true) :
    ∃ n, startsWithL litHeader (l.drop n) = true ∨
      startsWithL litFooter (l.drop n) = true := by
  unfold wsDotsHF at h
  simp only [List.any_eq_true, Bool.and_eq_true] at h
  obtain ⟨w, _, ⟨_, _⟩, d, _, _, hsw⟩ := h
  exact ⟨w + d, by simpa using hsw⟩

theorem scanImport_exists :
    ∀ l : List Char, scanImport l = true →
      ∃ n, matchImportAt (l.drop n) = true
  | [], h => ⟨0, by simpa [scanImport] using h⟩
  | c :: cs, h => by
    simp only [scanImport, Bool.or_eq_true] at h
    rcases h with h | h
    · exact ⟨0, by simpa using h⟩
    · obtain ⟨n, hn⟩ := scanImport_exists cs h
      exact ⟨n + 1, by simpa [List.drop_succ_cons] using hn⟩

/-- A line matched by the import regular expression mentions Header or
    Footer literally. -/
theorem testImportLine_refsHF (l : List Char)
    (h : testImportLine l = true) : refsHF l = true := by
  obtain ⟨n, hn⟩ := scanImport_exists l h
  unfold matchImportAt at hn
  rcases heq : takeAfterLit litImport (l.drop n) with _ | rest
  · rw [heq] at hn; simp at hn
  · rw [heq] at hn
    have hsplit : l.drop n = litImport ++ rest := takeAfterLit_some _ _ _ heq
    obtain ⟨m, hm⟩ := wsDotsHF_exists rest hn
    have hdrop : l.drop (n + (litImport.length + m)) = rest.drop m := by
      rw [← List.drop_drop, hsplit, drop_append_len]
    rcases hm with hm | hm
    · have : containsSeg litHeader l = true :=
        containsSeg_of_drop litHeader (by decide) l _ (by rw [hdrop]; exact hm)
      simp [refsHF, this]
    · have : containsSeg litFooter l = true :=
        containsSeg_of_drop litFooter (by decide) l _ (by rw [hdrop]; exact hm)
      simp [refsHF, this]

theorem startsWithL_append_le :
    ∀ (p a b : List Char), startsWithL p (a ++ b) = true →
      p.length ≤ a.length → startsWithL p a = true
  | [], _, _, _, _ => rfl
  | p :: ps, [], _, _, hle => by simp at hle
  | p :: ps, a :: as, b, h, hle => by
    simp only [List.cons_append, startsWithL, takeAfterLit] at h ⊢
    by_cases hc : (p == a) = true
    · simp only [hc, if_true] at h ⊢
      exact startsWithL_append_le ps as b h (by simpa using hle)
    · simp only [hc] at h
      simp at h

theorem mem_of_startsWithL_append_gt :
    ∀ (p a b : List Char) (c : Char),
      startsWithL p (a ++ c :: b) = true → a.length < p.length → c ∈ p
  | [], a, _, _, _, hgt => by simp at hgt
  | p :: ps, [], b, c, h, _ => by
    simp only [List.nil_append, startsWithL, takeAfterLit] at h
    by_cases hc : (p == c) = true
    · have : p = c := by simpa using hc
      simp [this]
    · simp only [hc] at h
      simp at h
  | p :: ps, a :: as, b, c, h, hgt => by
    simp only [List.cons_append, startsWithL, takeAfterLit] at h
    by_cases hc : (p == a) = true
    · simp only [hc, if_true] at h
      have := mem_of_startsWithL_append_gt ps as b c h (by simpa using hgt)
      simp [this]
    · simp only [hc] at h
      simp at h

theorem containsSeg_append_cons :
    ∀ (p a b : List Char), '\n' ∉ p →
      containsSeg p (a ++ '\n' :: b) = true →
      containsSeg p a = true ∨ containsSeg p b = true
  | p, [], b, hnl, h => by
    simp only [List.nil_append, containsSeg, Bool.or_eq_true] at h
    rcases h with h | h
    · rcases p with _ | ⟨p0, ps⟩
      · exact Or.inl rfl
      · simp only [startsWithL, takeAfterLit] at h
        by_cases hc : (p0 == '\n') = true
        · have : p0 = '\n' := by simpa using hc
          exact absurd (this ▸ List.mem_cons_self p0 ps) hnl
        · simp only [hc] at h
          simp at h
    · exact Or.inr h
  | p, a :: as, b, hnl, h => by
    simp only [List.cons_append, containsSeg, Bool.or_eq_true] at h
    rcases h with h | h
    · by_cases hle : p.length ≤ (a :: as).length
      · have := startsWithL_append_le p (a :: as) ('\n' :: b)
          (by simpa using h) hle
        exact Or.inl (containsSeg_of_startsWithL p (a :: as) this)
      · have hgt : (a :: as).length < p.length := by omega
        have := mem_of_startsWithL_append_gt p (a :: as) b '\n'
          (by simpa using h) hgt
        exact absurd this hnl
    · rcases containsSeg_append_cons p as b hnl h with h' | h'
      · exact Or.inl (by simp [containsSeg, h'])
      · exact Or.inr h'

theorem containsSeg_joinLines (p : List Char) (hp : p ≠ [])
    (hnl : '\n' ∉ p) :
    ∀ ls : List (List Char), (∀ l ∈ ls, containsSeg p l = false) →
      containsSeg p (joinLines ls) = false
  | [], _ => by
    rcases p with _ | ⟨p0, ps⟩
    · exact absurd rfl hp
    · simp [joinLines, containsSeg, startsWithL, takeAfterLit]
  | [l], h => by simpa [joinLines] using h l (by simp)
  | l :: l' :: ls, h => by
    rw [joinLines]
    cases hc : containsSeg p (l ++ '\n' :: joinLines (l' :: ls)) with
    | false => rfl
    | true =>
      rcases containsSeg_append_cons p l (joinLines (l' :: ls)) hnl hc
        with h' | h'
      · exact absurd h' (by simp [h l (by simp)])
      · have hrest := containsSeg_joinLines p hp hnl (l' :: ls)
          (fun x hx => h x (List.mem_cons_of_mem l hx))
        exact absurd h' (by simp [hrest])

theorem containsSeg_tail (c : Char) (p : List Char) :
    ∀ s : List Char, containsSeg (c :: p) s = true → containsSeg p s = true
  | [], h => by simp [containsSeg, startsWithL, takeAfterLit] at h
  | a :: as, h => by
    simp only [containsSeg, Bool.or_eq_true] at h ⊢
    rcases h with h | h
    · simp only [startsWithL, takeAfterLit] at h
      by_cases hc : (c == a) = true
      · simp only [hc, if_true] at h
        exact Or.inr (containsSeg_of_startsWithL p as h)
      · simp only [hc] at h
        simp at h
    · exact Or.inr (containsSeg_tail c p as h)

theorem tryMarker_startsWith (nm s : List Char)
    (h : (tryMarker nm s).isSome = true) : startsWithL nm s = true := by
  unfold tryMarker at h
  rcases heq : takeAfterLit nm s with _ | s1
  · rw [heq] at h; simp at h
  · simp [startsWithL, heq]

theorem hasMarker_eq_false (nm : List Char) :
    ∀ s : List Char, containsSeg nm s = false → hasMarker nm s = false
  | [], h => by
    rw [hasMarker]
    cases hm : (tryMarker nm []).isSome with
    | false => rfl
    | true =>
      have := tryMarker_startsWith nm [] hm
      rw [containsSeg] at h
      rw [h] at this
      exact absurd this (by simp)
  | c :: cs, h => by
    simp only [containsSeg, Bool.or_eq_false_iff] at h
    rw [hasMarker]
    cases hm : (tryMarker nm (c :: cs)).isSome with
    | false => simp [hasMarker_eq_false nm cs h.2]
    | true =>
      have := tryMarker_startsWith nm (c :: cs) hm
      rw [h.1] at this
      exact absurd this (by simp)

theorem removeMarkersF_id (nm : List Char) :
    ∀ (fuel : Nat) (s : List Char), hasMarker nm s = false →
      removeMarkersF nm fuel s = s
  | 0, _, _ => rfl
  | _ + 1, [], _ => rfl
  | fuel + 1, c :: cs, h => by
    simp only [hasMarker, Bool.or_eq_false_iff] at h
    have hnone : tryMarker nm (c :: cs) = none := by
      rcases heq : tryMarker nm (c :: cs) with _ | r

      · rfl
      · rw [heq] at h
        simp at h
    rw [removeMarkersF, hnone]
    simp [removeMarkersF_id nm fuel cs h.2]

theorem removeMarkers_id (nm s : List Char) (h : hasMarker nm s = false) :
    removeMarkers nm s = s :=
  removeMarkersF_id nm s.length s h

theorem splitLines_ne_nil : ∀ s : List Char, splitLines s ≠ []
  | [] => by simp [splitLines]
  | c :: cs => by
    rw [splitLines]
    by_cases hc : c = '\n'
    · simp [hc]
    · simp only [hc, if_false]
      rcases splitLines cs with _ | ⟨l, ls⟩ <;> simp

theorem joinLines_splitLines : ∀ s : List Char, joinLines (splitLines s) = s
  | [] => rfl
  | c :: cs => by
    rw [splitLines]
    by_cases hc : c = '\n'
    · simp only [hc, if_true]
      rcases hsp : splitLines cs with _ | ⟨l, ls⟩
      · exact absurd hsp (splitLines_ne_nil cs)
      · have ih := joinLines_splitLines cs
        rw [hsp] at ih
        rw [joinLines]
        simp [hc, ih]
    · simp only [hc, if_false]
      rcases hsp : splitLines cs with _ | ⟨l, ls⟩
      · exact absurd hsp (splitLines_ne_nil cs)
      · have ih := joinLines_splitLines cs
        rw [hsp] at ih
        cases ls with
        | nil => simpa [joinLines] using congrArg (c :: ·) ih
        | cons y ys =>
          rw [joinLines] at ih ⊢
          simp [← ih]

theorem mem_splitLines_no_nl :
    ∀ (s : List Char) (l : List Char), l ∈ splitLines s → '\n' ∉ l
  | [], l, hl => by
    simp only [splitLines, List.mem_singleton] at hl
    simp [hl]
  | c :: cs, l, hl => by
    rw [splitLines] at hl
    by_cases hc : c = '\n'
    · simp only [hc, if_true, List.mem_cons] at hl
      rcases hl with hl | hl
      · simp [hl]
      · exact mem_splitLines_no_nl cs l hl
    · simp only [hc, if_false] at hl
      rcases hsp : splitLines cs with _ | ⟨x, xs⟩
      · exact absurd hsp (splitLines_ne_nil cs)
      · rw [hsp, List.mem_cons] at hl
        rcases hl with hl | hl
        · intro hmem
          rw [hl, List.mem_cons] at hmem
          rcases hmem with hmem | hmem
          · exact hc hmem.symm
          · exact mem_splitLines_no_nl cs x (hsp ▸ List.mem_cons_self x xs)
              hmem
        · exact mem_splitLines_no_nl cs l
            (hsp ▸ List.mem_cons_of_mem x hl)

theorem splitLines_single (l : List Char) (h : '\n' ∉ l) :
    splitLines l = [l] := by
  induction l with
  | nil => rfl
  | cons c cs ih =>
    have hc : ¬ c = '\n' := fun hx => h (by simp [hx])
    rw [splitLines, if_neg hc, ih (fun hx => h (List.mem_cons_of_mem c hx))]

theorem splitLines_append (l r : List Char) (h : '\n' ∉ l) :
    splitLines (l ++ '\n' :: r) = l :: splitLines r := by
  induction l with
  | nil => simp [splitLines]
  | cons c cs ih =>
    have hc : ¬ c = '\n' := fun hx => h (by simp [hx])
    rw [List.cons_append, splitLines, if_neg hc,
      ih (fun hx => h (List.mem_cons_of_mem c hx))]

theorem splitLines_joinLines :
    ∀ ls : List (List Char), ls ≠ [] → (∀ l ∈ ls, '\n' ∉ l) →
      splitLines (joinLines ls) = ls
  | [], h0, _ => absurd rfl h0
  | [l], _, h => by
    rw [joinLines]
    exact splitLines_single l (h l (by simp))
  | l :: l' :: ls, _, h => by
    rw [joinLines, splitLines_append l _ (h l (by simp))]
    rw [splitLines_joinLines (l' :: ls) (by simp)
      (fun x hx => h x (List.mem_cons_of_mem l hx))]

theorem isSubseqOf_refl : ∀ ls : List (List Char), isSubseqOf ls ls = true
  | [] => rfl
  | l :: ls => by simp [isSubseqOf, isSubseqOf_refl ls]

/-- C2 fails on the code as universally stated: in this input the second
    line hides a Footer marker whose removal splices together a Header
    marker, which survives patching. -/
theorem layout_patch_claim_cex :
    ¬ claimC2At ("import Header\n<Head<Footer/>er/>".toList) := by
  intro h
  exact absurd (h (by decide)).2.1 (by decide)

/-- C2 amended.  If additionally every line of the layout text either
    matches the import pattern or does not mention Header or Footer at all
    (so no marker can span a line boundary or be spliced together), the
    claimed property holds: after patching no line matches the import
    pattern, no usage marker of either symbol remains anywhere, and the
    lines that do not mention the symbols survive verbatim and in their
    original order. -/
theorem layout_patch_amended (t : List Char)
    (_himp : ∃ l ∈ splitLines t, testImportLine l = true)
    (href : ∀ l ∈ splitLines t, testImportLine l = true ∨ refsHF l = false) :
    (∀ l ∈ splitLines (patchText t), testImportLine l = false)
    ∧ hasMarker markHeader (patchText t) = false
    ∧ hasMarker markFooter (patchText t) = false
    ∧ isSubseqOf ((splitLines t).filter (fun l => !refsHF l))
        (splitLines (patchText t)) = true := by
  have hpoint : ∀ l ∈ splitLines t, (!refsHF l) = (!testImportLine l) := by
    intro l hl
    rcases href l hl with h | h
    · rw [h, testImportLine_refsHF l h]
    · cases hT : testImportLine l with
      | false => rw [h]
      | true =>
        have := testImportLine_refsHF l hT
        rw [h] at this
        exact absurd this (by simp)
  have hfilter : (splitLines t).filter (fun l => !refsHF l)
      = (splitLines t).filter (fun l => !testImportLine l) :=
    List.filter_congr hpoint
  have hksref : ∀ l ∈ (splitLines t).filter (fun l => !testImportLine l),
      refsHF l = false := by
    intro l hl
    have hmem := List.mem_filter.mp hl
    rcases href l hmem.1 with h | h
    · have := hmem.2
      rw [h] at this
      exact absurd this (by simp)
    · exact h
  have hjH : containsSeg litHeader
      (joinLines ((splitLines t).filter (fun l => !testImportLine l)))
      = false :=
    containsSeg_joinLines litHeader (by decide) (by decide) _
      (fun l hl => by
        have := hksref l hl
        simp only [refsHF, Bool.or_eq_false_iff] at this
        exact this.1)
  have hjF : containsSeg litFooter
      (joinLines ((splitLines t).filter (fun l => !testImportLine l)))
      = false :=
    containsSeg_joinLines litFooter (by decide) (by decide) _
      (fun l hl => by
        have := hksref l hl
        simp only [refsHF, Bool.or_eq_false_iff] at this
        exact this.2)
  have hmH : containsSeg markHeader
      (joinLines ((splitLines t).filter (fun l => !testImportLine l)))
      = false := by
    cases hc : containsSeg markHeader
        (joinLines ((splitLines t).filter (fun l => !testImportLine l))) with
    | false => rfl
    | true =>
      have := containsSeg_tail '<' litHeader _ hc
      rw [hjH] at this
      exact absurd this (by simp)
  have hmF : containsSeg markFooter
      (joinLines ((splitLines t).filter (fun l => !testImportLine l)))
      = false := by
    cases hc : containsSeg markFooter
        (joinLines ((splitLines t).filter (fun l => !testImportLine l))) with
    | false => rfl
    | true =>
      have := containsSeg_tail '<' litFooter _ hc
      rw [hjF] at this
      exact absurd this (by simp)
  have hpatch : patchText t
      = joinLines ((splitLines t).filter (fun l => !testImportLine l)) := by
    unfold patchText
    rw [removeMarkers_id _ _ (hasMarker_eq_false _ _ hmH),
      removeMarkers_id _ _ (hasMarker_eq_false _ _ hmF)]
  rcases hks : (splitLines t).filter (fun l => !testImportLine l)
      with _ | ⟨k0, ktl⟩
  · have hempty : patchText t = [] := by rw [hpatch, hks]; rfl
    refine ⟨?_, ?_, ?_, ?_⟩
    · intro l hl
      rw [hempty] at hl
      simp only [splitLines, List.mem_singleton] at hl
      rw [hl]
      decide
    · rw [hempty]; decide
    · rw [hempty]; decide
    · rw [hfilter, hks, hempty]
      rfl
  · have hsplit : splitLines (patchText t)
        = (splitLines t).filter (fun l => !testImportLine l) := by
      rw [hpatch]
      exact splitLines_joinLines _ (by rw [hks]; simp)
        (fun l hl => mem_splitLines_no_nl t l (List.mem_filter.mp hl).1)
    refine ⟨?_, ?_, ?_, ?_⟩
    · intro l hl
      rw [hsplit] at hl
      have := (List.mem_filter.mp hl).2
      simpa using this
    · rw [hpatch]
      exact hasMarker_eq_false _ _ hmH
    · rw [hpatch]
      exact hasMarker_eq_false _ _ hmF
    · rw [hfilter, hsplit]
      exact isSubseqOf_refl _

/-- Witness for the amended C2 at a concrete layout text. -/
theorem layout_patch_amended_witness :
    (∀ l ∈ splitLines (patchText ("import x Header\nconst a = 1".toList)),
        testImportLine l = false)
    ∧ hasMarker markHeader (patchText ("import x Header\nconst a = 1".toList))
        = false
    ∧ hasMarker markFooter (patchText ("import x Header\nconst a = 1".toList))
        = false
    ∧ isSubseqOf
        ((splitLines ("import x Header\nconst a = 1".toList)).filter
          (fun l => !refsHF l))
        (splitLines (patchText ("import x Header\nconst a = 1".toList)))
        = true :=
  layout_patch_amended ("import x Header\nconst a = 1".toList)
    (by decide) (by decide)

/-- C10 fails on the code: patching this text once splices an import line
    together (the Header marker spans the newline), so a second application
    removes it and the result differs. -/
theorem layout_patch_idem_cex :
    ¬ (patchText (patchText ("imp<Header\n/>ort x Header".toList))
        = patchText ("imp<Header\n/>ort x Header".toList)) := by decide

/-- C10 amended.  The patch transformation is idempotent on every input
    whose once-patched output contains no line matching the import pattern
    and no Header or Footer marker; the counterexample shows the
    restriction is necessary. -/
theorem layout_patch_idem_amended (t : List Char)
    (h1 : ∀ l ∈ splitLines (patchText t), testImportLine l = false)
    (h2 : hasMarker markHeader (patchText t) = false)
    (h3 : hasMarker markFooter (patchText t) = false) :
    patchText (patchText t) = patchText t := by
  have hfil : (splitLines (patchText t)).filter
      (fun l => !testImportLine l) = splitLines (patchText t) :=
    List.filter_eq_self.mpr (fun l hl => by rw [h1 l hl]; rfl)
  conv_lhs => rw [patchText]
  rw [hfil, joinLines_splitLines,
    removeMarkers_id _ _ h2, removeMarkers_id _ _ h3]

/-- Witness for the amended C10 at a concrete layout text. -/
theorem layout_patch_idem_amended_witness :
    patchText (patchText ("const a = 1".toList))
      = patchText ("const a = 1".toList) :=
  layout_patch_idem_amended ("const a = 1".toList)
    (by decide) (by decide) (by decide)

/- ===== The pipeline (function main of src/index.js) =====

   The pipeline is embedded as a state machine.  FSState is the state of
   the target directory; file contents that no claim inspects (the fixed
   replacement CSS of lines 113-334, the fixed replacement page of lines
   372-429, template file bytes) are abstracted to provenance tags, while
   package.json is carried as a parsed object and layout.js as its text.
   Env records the outcome of every external collaborator call: which
   filesystem and process invocations succeed, what a successful clone
   produces, and what a failed clone leaves behind.  A run returns the
   final directory state, the exit kind (process.exit(1) on a fatal step,
   normal completion means exit code 0), the ordered list of pipeline
   steps that began executing, and the user-facing progress messages. -/

/-- Provenance of a file whose bytes no claim inspects. -/
inductive FileTag where
  | fromTemplate
  | replacement
  deriving DecidableEq

/-- State of the version-control metadata directory at the target. -/
inductive GitState where
  | absent
  | fromTemplate
  | fresh
  deriving DecidableEq

/-- Abstract state of the target directory. -/
structure FSState where
  present : Bool
  entries : List String
  docs : Bool
  blog : Bool
  pkg : Option Manifest
  css : Option FileTag
  components : List String
  layout : Option (List Char)
  page : Option FileTag
  git : GitState
  nodeModules : Bool

/-- Collaborator outcomes for one run.  resolve and basename stand for the
    Node path.resolve and path.basename functions (platform-dependent,
    consumed as an interface).  template is the directory state a
    successful clone produces; cloneFailState is whatever a failed clone
    left behind. -/
structure Env where
  resolve : String → String
  basename : String → String
  accessOk : Bool
  readdirOk : Bool
  cloneOk : Bool
  template : FSState
  cloneFailState : FSState
  rmDocsOk : Bool
  rmBlogOk : Bool
  pkgWriteOk : Bool
  cssWriteOk : Bool
  unlinkOk : String → Bool
  layoutReadOk : Bool
  layoutWriteOk : Bool
  pageWriteOk : Bool
  gitRmOk : Bool
  gitInitOk : Bool
  npmOk : Bool
  finalReadOk : Bool

/-- The pipeline steps, in source order. -/
inductive Step where
  | precheck
  | clone
  | prune
  | manifest
  | customize
  | gitReset
  | install
  | report
  deriving DecidableEq

/-- User-visible progress messages (spinner and console output). -/
inductive Msg where
  | usageError
  | dirNotEmpty
  | cloneSucceeded
  | cloneFailed
  | dirsSucceeded
  | dirsWarned
  | pkgSucceeded
  | pkgFailed
  | customizeSucceeded
  | gitSucceeded
  | gitFailed
  | npmSucceeded
  | npmFailed
  | finalizeSucceeded
  | finalizeWarned
  | setupComplete
  deriving DecidableEq

/-- The summary block contents: one line per script entry, or one of the
    two fixed fallback messages of lines 471 and 476.  The scripts case
    stands for one printed line npm run key arrow command per entry. -/
inductive Report where
  | scripts (entries : List (String × Json))
  | noScripts
  | unableToFetch

/-- How the process ended: exited carries the process.exit code of a fatal
    step, completed means main ran to the end (exit code 0). -/
inductive Outcome where
  | exited (code : Nat) (fs : FSState)
  | completed (fs : FSState) (rep : Report)

/-- The final directory state, however the run ended. -/
def Outcome.fsOf : Outcome → FSState
  | .exited _ fs => fs
  | .completed fs _ => fs

/-- Whether the run ended by normal completion (exit code 0). -/
def Outcome.isCompleted : Outcome → Bool
  | .exited _ _ => false
  | .completed _ _ => true

structure RunResult where
  outcome : Outcome
  trace : List Step
  msgs : List Msg

/-- JavaScript truthiness of a JSON value. -/
def jsTruthy : Json → Bool
  | .null => false
  | .bool b => b
  | .num n => decide (n ≠ 0)
  | .str s => decide (s ≠ "")
  | .arr _ => true
  | .obj _ => true

/-- JavaScript Object.entries of a JSON value: fields of an object in
    order, index/character pairs of a string, index/element pairs of an
    array, empty for the other primitives. -/
def jsEntries : Json → List (String × Json)
  | .obj fields => fields
  | .str s => s.toList.enum.map (fun ic => (toString ic.1, Json.str (String.mk [ic.2])))
  | .arr elems => elems.enum.map (fun ie => (toString ie.1, ie.2))
  | _ => []

/-- The guard of lines 52-58: the fatal directory-not-empty error fires
    exactly when the directory exists, fs.access and fs.readdir both
    succeed, and the listing is non-empty; any exception in the try block
    is swallowed. -/
def precheckBlocks (env : Env) (fs : FSState) : Bool :=
  fs.present && env.accessOk && env.readdirOk && !fs.entries.isEmpty

/-- Lines 77-83: remove docs, then blog; a throw on the first removal
    skips the second; failures only change the spinner message. -/
def pruneStep (env : Env) (fs : FSState) : FSState :=
  if env.rmDocsOk then
    if env.rmBlogOk then { fs with docs := false, blog := false }
    else { fs with docs := false }
  else fs

def pruneMsgOf (env : Env) : Msg :=
  if env.rmDocsOk && env.rmBlogOk then .dirsSucceeded else .dirsWarned

/-- Lines 335-339: overwrite src/index.css, failure swallowed. -/
def cssStep (env : Env) (fs : FSState) : FSState :=
  if env.cssWriteOk then { fs with css := some .replacement } else fs

/-- The fixed component files of line 343. -/
def filesToRemove : List String :=
  ["CodeBlock.js", "Footer.js", "Header.js", "Peach3dModel.js"]

/-- Lines 344-351: unlink each listed component file, each failure
    swallowed individually. -/
def componentsStep (env : Env) (fs : FSState) : FSState :=
  { fs with components :=
      fs.components.filter (fun c => !(filesToRemove.contains c && env.unlinkOk c)) }

/-- Lines 353-368: read layout.js, apply the pure patch, write it back;
    reading a missing or unreadable file skips the whole block, a failed
    write leaves the file unchanged. -/
def layoutStep (env : Env) (fs : FSState) : FSState :=
  match fs.layout, env.layoutReadOk, env.layoutWriteOk with
  | some text, true, true => { fs with layout := some (patchText text) }
  | _, _, _ => fs

/-- Lines 370-434: overwrite src/app/page.js, failure swallowed. -/
def pageStep (env : Env) (fs : FSState) : FSState :=
  if env.pageWriteOk then { fs with page := some .replacement } else fs

/-- Lines 109-435: the four customization sub-operations in source
    order. -/
def customizeStep (env : Env) (fs : FSState) : FSState :=
  pageStep env (layoutStep env (componentsStep env (cssStep env fs)))

/-- Lines 460-477: re-read package.json and format the scripts listing. -/
def reportText (env : Env) (fs : FSState) : Report :=
  if env.finalReadOk then
    match fs.pkg with
    | some m =>
      match lookupKey "scripts" m with
      | some sv =>
        if jsTruthy sv && !(jsEntries sv).isEmpty then .scripts (jsEntries sv)
        else .noScripts
      | none => .noScripts
    | none => .unableToFetch
  else .unableToFetch

def finalizeMsgOf (env : Env) : Msg :=
  if env.finalReadOk then .finalizeSucceeded else .finalizeWarned

/-- The whole of function main, in source order.  Each branch lists the
    steps that began executing and the messages printed on that path. -/
def runMain (args : List String) (env : Env) (fs0 : FSState) : RunResult :=
  match args with
  | [] => ⟨.exited 1 fs0, [], [.usageError]⟩
  | providedPath :: _ =>
    let projectName := env.basename (env.resolve providedPath)
    if precheckBlocks env fs0 then
      ⟨.exited 1 fs0, [.precheck], [.dirNotEmpty]⟩
    else if !env.cloneOk then
      ⟨.exited 1 env.cloneFailState, [.precheck, .clone], [.cloneFailed]⟩
    else
      let fs2 := pruneStep env { env.template with present := true }
      match fs2.pkg, env.pkgWriteOk with
      | some m, true =>
        let fs4 := customizeStep env
          { fs2 with pkg := some (rewriteManifest projectName m) }
        if env.gitRmOk then
          if env.gitInitOk then
            if env.npmOk then
              let fs6 := { fs4 with git := .fresh, nodeModules := true }
              ⟨.completed fs6 (reportText env fs6),
               [.precheck, .clone, .prune, .manifest, .customize, .gitReset,
                .install, .report],
               [.cloneSucceeded, pruneMsgOf env, .pkgSucceeded,
                .customizeSucceeded, .gitSucceeded, .npmSucceeded,
                finalizeMsgOf env, .setupComplete]⟩
            else
              ⟨.exited 1 { fs4 with git := .fresh },
               [.precheck, .clone, .prune, .manifest, .customize, .gitReset,
                .install],
               [.cloneSucceeded, pruneMsgOf env, .pkgSucceeded,
                .customizeSucceeded, .gitSucceeded, .npmFailed]⟩
          else
            ⟨.exited 1 { fs4 with git := .absent },
             [.precheck, .clone, .prune, .manifest, .customize, .gitReset],
             [.cloneSucceeded, pruneMsgOf env, .pkgSucceeded,
              .customizeSucceeded, .gitFailed]⟩
        else
          ⟨.exited 1 fs4,
           [.precheck, .clone, .prune, .manifest, .customize, .gitReset],
           [.cloneSucceeded, pruneMsgOf env, .pkgSucceeded,
            .customizeSucceeded, .gitFailed]⟩
      | _, _ =>
        ⟨.exited 1 fs2, [.precheck, .clone, .prune, .manifest],
         [.cloneSucceeded, pruneMsgOf env, .pkgFailed]⟩

/-- The scripts value of the manifest stored at the target, as the final
    reporting step reads it. -/
def scriptsOf (fs : FSState) : Option Json := fs.pkg.bind (lookupKey "scripts")

theorem pruneStep_pkg (env : Env) (fs : FSState) :
    (pruneStep env fs).pkg = fs.pkg := by
  unfold pruneStep
  split
  · split <;> rfl
  · rfl

theorem cssStep_pkg (env : Env) (fs : FSState) :
    (cssStep env fs).pkg = fs.pkg := by
  unfold cssStep; split <;> rfl

theorem cssStep_docs (env : Env) (fs : FSState) :
    (cssStep env fs).docs = fs.docs := by
  unfold cssStep; split <;> rfl

theorem cssStep_blog (env : Env) (fs : FSState) :
    (cssStep env fs).blog = fs.blog := by
  unfold cssStep; split <;> rfl

theorem layoutStep_pkg (env : Env) (fs : FSState) :
    (layoutStep env fs).pkg = fs.pkg := by
  unfold layoutStep; split <;> rfl

theorem layoutStep_docs (env : Env) (fs : FSState) :
    (layoutStep env fs).docs = fs.docs := by
  unfold layoutStep; split <;> rfl

theorem layoutStep_blog (env : Env) (fs : FSState) :
    (layoutStep env fs).blog = fs.blog := by
  unfold layoutStep; split <;> rfl

theorem pageStep_pkg (env : Env) (fs : FSState) :
    (pageStep env fs).pkg = fs.pkg := by
  unfold pageStep; split <;> rfl

theorem pageStep_docs (env : Env) (fs : FSState) :
    (pageStep env fs).docs = fs.docs := by
  unfold pageStep; split <;> rfl

theorem pageStep_blog (env : Env) (fs : FSState) :
    (pageStep env fs).blog = fs.blog := by
  unfold pageStep; split <;> rfl

theorem componentsStep_pkg (env : Env) (fs : FSState) :
    (componentsStep env fs).pkg = fs.pkg := by
  unfold componentsStep; rfl

theorem componentsStep_docs (env : Env) (fs : FSState) :
    (componentsStep env fs).docs = fs.docs := by
  unfold componentsStep; rfl

theorem componentsStep_blog (env : Env) (fs : FSState) :
    (componentsStep env fs).blog = fs.blog := by
  unfold componentsStep; rfl

theorem customizeStep_pkg (env : Env) (fs : FSState) :
    (customizeStep env fs).pkg = fs.pkg := by
  unfold customizeStep
  rw [pageStep_pkg, layoutStep_pkg, componentsStep_pkg, cssStep_pkg]

theorem customizeStep_docs (env : Env) (fs : FSState) :
    (customizeStep env fs).docs = fs.docs := by
  unfold customizeStep
  rw [pageStep_docs, layoutStep_docs, componentsStep_docs, cssStep_docs]

theorem customizeStep_blog (env : Env) (fs : FSState) :
    (customizeStep env fs).blog = fs.blog := by
  unfold customizeStep
  rw [pageStep_blog, layoutStep_blog, componentsStep_blog, cssStep_blog]

/-- Rewriting the manifest never touches the scripts entry. -/
theorem lookupKey_rewriteManifest_scripts (projectName : String)
    (pkg : Manifest) :
    lookupKey "scripts" (rewriteManifest projectName pkg)
      = lookupKey "scripts" pkg := by
  unfold rewriteManifest
  rw [lookupKey_setKey_ne _ _ (by decide), lookupKey_setKey_ne _ _ (by decide),
    lookupKey_delKey_ne _ _ (by decide), lookupKey_delKey_ne _ _ (by decide),
    lookupKey_setKey_ne _ _ (by decide)]

/-- Neither spinner-summary message can be the directory-not-empty
    error. -/
theorem pruneMsgOf_ne (env : Env) : pruneMsgOf env ≠ Msg.dirNotEmpty := by
  unfold pruneMsgOf
  split <;> intro h <;> exact Msg.noConfusion h

theorem finalizeMsgOf_ne (env : Env) :
    finalizeMsgOf env ≠ Msg.dirNotEmpty := by
  unfold finalizeMsgOf
  split <;> intro h <;> exact Msg.noConfusion h

/-- Once the precheck does not fire, the clone step starts and the
    directory-not-empty error can no longer be printed, on every path. -/
theorem clone_reached (p : String) (rest : List String) (env : Env)
    (fs0 : FSState) (hpb : precheckBlocks env fs0 = false) :
    Step.clone ∈ (runMain (p :: rest) env fs0).trace
    ∧ Msg.dirNotEmpty ∉ (runMain (p :: rest) env fs0).msgs := by
  unfold runMain
  simp only [hpb, Bool.false_eq_true, if_false]
  by_cases hc : env.cloneOk
  · simp only [hc, Bool.not_true, Bool.false_eq_true, if_false]
    constructor
    · repeat' split
      all_goals simp
    · repeat' split
      all_goals
        simp [List.mem_cons, Ne.symm (pruneMsgOf_ne env),
          Ne.symm (finalizeMsgOf_ne env)]
  · have hc' : env.cloneOk = false := by simpa using hc
    simp only [hc', Bool.not_false, if_true]
    exact ⟨by simp, by simp⟩

/-- C3.  If the target directory exists and has at least one entry, the run
    exits with code 1 and the final directory state is exactly the initial
    one, so no filesystem mutation has happened; at most the precheck and
    the clone attempt ever start.  The hypotheses hgit and hfail record the
    documented behavior of the git collaborator: clone refuses an existing
    non-empty target directory, and such a refused clone leaves the
    directory untouched.  When the existence check and the listing both
    succeed, the directory-not-empty error itself fires and nothing past
    the precheck starts. -/
theorem nonempty_target_no_mutation (p : String) (rest : List String)
    (env : Env) (fs0 : FSState)
    (hp : fs0.present = true) (hne : fs0.entries ≠ [])
    (hgit : env.cloneOk = true → fs0.entries = [])
    (hfail : env.cloneFailState = fs0) :
    (runMain (p :: rest) env fs0).outcome = .exited 1 fs0
    ∧ ((runMain (p :: rest) env fs0).trace = [.precheck]
        ∨ (runMain (p :: rest) env fs0).trace = [.precheck, .clone])
    ∧ (env.accessOk = true → env.readdirOk = true →
        runMain (p :: rest) env fs0
          = ⟨.exited 1 fs0, [.precheck], [.dirNotEmpty]⟩) := by
  have hc : env.cloneOk = false := by
    cases h : env.cloneOk
    · rfl
    · exact absurd (hgit h) hne
  have hE : fs0.entries.isEmpty = false := by
    rcases hEE : fs0.entries with _ | ⟨e, es⟩
    · exact absurd hEE hne
    · rfl
  by_cases hap : env.accessOk = true ∧ env.readdirOk = true
  · have hpb : precheckBlocks env fs0 = true := by
      simp [precheckBlocks, hp, hap.1, hap.2, hE]
    unfold runMain
    simp only [hpb, if_true]
    exact ⟨trivial, Or.inl trivial, fun _ _ => trivial⟩
  · have hpb : precheckBlocks env fs0 = false := by
      unfold precheckBlocks
      cases ha : env.accessOk
      · simp
      · cases hr : env.readdirOk
        · simp
        · exact absurd ⟨ha, hr⟩ hap
    unfold runMain
    simp only [hpb, Bool.false_eq_true, if_false, hc, Bool.not_false, if_true]
    refine ⟨by rw [hfail], Or.inr trivial, fun h1 h2 => absurd ⟨h1, h2⟩ hap⟩

/-- C8.  When template acquisition fails, the run exits with code 1, no
    later pipeline step starts (the trace ends at the clone step), and the
    target location is exactly the state the failed clone left behind. -/
theorem clone_failure_stops_pipeline (p : String) (rest : List String)
    (env : Env) (fs0 : FSState)
    (hpb : precheckBlocks env fs0 = false)
    (hclone : env.cloneOk = false) :
    runMain (p :: rest) env fs0
      = ⟨.exited 1 env.cloneFailState, [.precheck, .clone],
         [.cloneFailed]⟩ := by
  unfold runMain
  simp only [hpb, Bool.false_eq_true, if_false, hclone, Bool.not_false,
    if_true]

/-- C9.  If the target directory exists but the existence check or the
    directory listing raises, the precondition check is silently skipped:
    the run is identical to a run against a non-existent path, the clone
    step is reached, and the directory-not-empty error is never printed
    (it can only fire when the listing succeeds). -/
theorem precheck_errors_swallowed (p : String) (rest : List String)
    (env : Env) (fs0 : FSState)
    (_hp : fs0.present = true)
    (hfail : env.accessOk = false ∨ env.readdirOk = false) :
    runMain (p :: rest) env fs0
      = runMain (p :: rest) env { fs0 with present := false, entries := [] }
    ∧ Step.clone ∈ (runMain (p :: rest) env fs0).trace
    ∧ Msg.dirNotEmpty ∉ (runMain (p :: rest) env fs0).msgs := by
  have hpb : precheckBlocks env fs0 = false := by
    unfold precheckBlocks
    rcases hfail with h | h
    · simp [h]
    · simp [h]
  have hpb' : precheckBlocks env
      { fs0 with present := false, entries := [] } = false := by
    simp [precheckBlocks]
  have hcr := clone_reached p rest env fs0 hpb
  refine ⟨?_, hcr.1, hcr.2⟩
  unfold runMain
  simp only [hpb, hpb', Bool.false_eq_true, if_false]

/-- Case analysis of the final reporting text, for a manifest stored at
    the target. -/
theorem reportText_spec (env : Env) (fs : FSState) (mF : Manifest)
    (hpkg : fs.pkg = some mF) :
    (env.finalReadOk = false → reportText env fs = .unableToFetch)
    ∧ (env.finalReadOk = true →
        (∀ sv, lookupKey "scripts" mF = some sv →
          ((jsTruthy sv && !(jsEntries sv).isEmpty) = true →
            reportText env fs = .scripts (jsEntries sv))
          ∧ ((jsTruthy sv && !(jsEntries sv).isEmpty) = false →
            reportText env fs = .noScripts))
        ∧ (lookupKey "scripts" mF = none →
            reportText env fs = .noScripts)) := by
  constructor
  · intro h
    simp [reportText, h]
  · intro h
    constructor
    · intro sv hsv
      constructor
      · intro ht
        simp [reportText, h, hpkg, hsv, ht]
      · intro ht
        simp [reportText, h, hpkg, hsv, ht]
    · intro hnone
      simp [reportText, h, hpkg, hnone]

/-- C6.  Whatever the outcomes of the four customization sub-operations
    (stylesheet overwrite, component deletion, layout patch, page
    overwrite) - none of which is constrained below - the customization
    step reports success and the pipeline proceeds to the version-control
    reset step. -/
theorem customize_always_proceeds (p : String) (rest : List String)
    (env : Env) (fs0 : FSState)
    (hpb : precheckBlocks env fs0 = false)
    (hclone : env.cloneOk = true)
    (m : Manifest) (hpkg : env.template.pkg = some m)
    (hwrite : env.pkgWriteOk = true) :
    Msg.customizeSucceeded ∈ (runMain (p :: rest) env fs0).msgs
    ∧ Step.gitReset ∈ (runMain (p :: rest) env fs0).trace := by
  have hpkg2 : (pruneStep env { env.template with present := true }).pkg
      = some m := by
    rw [pruneStep_pkg]; exact hpkg
  unfold runMain
  simp only [hpb, Bool.false_eq_true, if_false, hclone, Bool.not_true,
    hpkg2, hwrite]
  constructor
  · repeat' split
    all_goals simp
  · repeat' split
    all_goals simp

/-- C5.  If the target path does not exist or is empty and every
    collaborator call succeeds, the run completes and neither of the two
    pruned directories (src/app/docs and src/app/blog) is present in the
    final tree; no later step of the model touches them. -/
theorem pruned_dirs_absent (p : String) (rest : List String)
    (env : Env) (fs0 : FSState)
    (hempty : fs0.present = false ∨ fs0.entries = [])
    (hclone : env.cloneOk = true)
    (hdocs : env.rmDocsOk = true) (hblog : env.rmBlogOk = true)
    (m : Manifest) (hpkg : env.template.pkg = some m)
    (hwrite : env.pkgWriteOk = true)
    (hgrm : env.gitRmOk = true) (hgin : env.gitInitOk = true)
    (hnpm : env.npmOk = true) :
    (runMain (p :: rest) env fs0).outcome.isCompleted = true
    ∧ ((runMain (p :: rest) env fs0).outcome.fsOf).docs = false
    ∧ ((runMain (p :: rest) env fs0).outcome.fsOf).blog = false := by
  have hpb : precheckBlocks env fs0 = false := by
    unfold precheckBlocks
    rcases hempty with h | h
    · simp [h]
    · simp [h]
  have hpkg2 : (pruneStep env { env.template with present := true }).pkg
      = some m := by
    rw [pruneStep_pkg]; exact hpkg
  unfold runMain
  simp only [hpb, Bool.false_eq_true, if_false, hclone, Bool.not_true,
    hpkg2, hwrite, hgrm, hgin, hnpm, if_true]
  refine ⟨rfl, ?_, ?_⟩
  · simp [Outcome.fsOf, customizeStep_docs, pruneStep, hdocs, hblog]
  · simp [Outcome.fsOf, customizeStep_blog, pruneStep, hdocs, hblog]

/-- C4.  On a completed run, no step mutates the manifest scripts mapping:
    the scripts value the final reporting step reads from the target equals
    the scripts value of the cloned template manifest. -/
theorem scripts_never_mutated (p : String) (rest : List String)
    (env : Env) (fs0 : FSState)
    (hpb : precheckBlocks env fs0 = false)
    (hclone : env.cloneOk = true)
    (m : Manifest) (hpkg : env.template.pkg = some m)
    (hwrite : env.pkgWriteOk = true)
    (hgrm : env.gitRmOk = true) (hgin : env.gitInitOk = true)
    (hnpm : env.npmOk = true)
    (sv : Json) (hs : lookupKey "scripts" m = some sv) :
    (runMain (p :: rest) env fs0).outcome.isCompleted = true
    ∧ scriptsOf ((runMain (p :: rest) env fs0).outcome.fsOf)
        = lookupKey "scripts" m
    ∧ scriptsOf ((runMain (p :: rest) env fs0).outcome.fsOf) = some sv := by
  have hpkg2 : (pruneStep env { env.template with present := true }).pkg
      = some m := by
    rw [pruneStep_pkg]; exact hpkg
  unfold runMain
  simp only [hpb, Bool.false_eq_true, if_false, hclone, Bool.not_true,
    hpkg2, hwrite, hgrm, hgin, hnpm, if_true]
  refine ⟨rfl, ?_, ?_⟩
  · simp [Outcome.fsOf, scriptsOf, customizeStep_pkg,
      lookupKey_rewriteManifest_scripts]
  · simp [Outcome.fsOf, scriptsOf, customizeStep_pkg,
      lookupKey_rewriteManifest_scripts, hs]

/-- C7.  On a run whose fatal steps all succeed, the process completes
    (exit code 0) whatever the reporting re-read does, the printed summary
    is exactly reportText of the final state, and that summary is one line
    per scripts entry when the re-read scripts mapping is present, truthy
    and non-empty, the fixed no-scripts message when it is absent or
    empty, and the fixed unable-to-fetch message when the re-read fails. -/
theorem reporting_never_aborts (p : String) (rest : List String)
    (env : Env) (fs0 : FSState)
    (hpb : precheckBlocks env fs0 = false)
    (hclone : env.cloneOk = true)
    (m : Manifest) (hpkg : env.template.pkg = some m)
    (hwrite : env.pkgWriteOk = true)
    (hgrm : env.gitRmOk = true) (hgin : env.gitInitOk = true)
    (hnpm : env.npmOk = true) :
    (runMain (p :: rest) env fs0).outcome.isCompleted = true
    ∧ (∀ fsF rep,
        (runMain (p :: rest) env fs0).outcome = .completed fsF rep →
        rep = reportText env fsF
        ∧ (env.finalReadOk = false → rep = .unableToFetch)
        ∧ (env.finalReadOk = true →
            (∀ sv, scriptsOf fsF = some sv →
              ((jsTruthy sv && !(jsEntries sv).isEmpty) = true →
                rep = .scripts (jsEntries sv))
              ∧ ((jsTruthy sv && !(jsEntries sv).isEmpty) = false →
                rep = .noScripts))
            ∧ (scriptsOf fsF = none → rep = .noScripts))) := by
  have hpkg2 : (pruneStep env { env.template with present := true }).pkg
      = some m := by
    rw [pruneStep_pkg]; exact hpkg
  unfold runMain
  simp only [hpb, Bool.false_eq_true, if_false, hclone, Bool.not_true,
    hpkg2, hwrite, hgrm, hgin, hnpm, if_true]
  refine ⟨rfl, ?_⟩
  intro fsF rep heq
  simp only [Outcome.completed.injEq] at heq
  obtain ⟨hfs, hrep⟩ := heq
  rw [hfs] at hrep
  have hFpkg : fsF.pkg
      = some (rewriteManifest (env.basename (env.resolve p)) m) := by
    rw [← hfs]
    simp [customizeStep_pkg]
  have hspec := reportText_spec env fsF _ hFpkg
  refine ⟨hrep.symm, ?_, ?_⟩
  · intro h
    rw [← hrep]
    exact hspec.1 h
  · intro h
    have hsOf : scriptsOf fsF
        = lookupKey "scripts"
            (rewriteManifest (env.basename (env.resolve p)) m) := by
      simp [scriptsOf, hFpkg]
    constructor
    · intro sv hsv
      rw [hsOf] at hsv
      constructor
      · intro ht
        rw [← hrep]
        exact ((hspec.2 h).1 sv hsv).1 ht
      · intro ht
        rw [← hrep]
        exact ((hspec.2 h).1 sv hsv).2 ht
    · intro hnone
      rw [hsOf] at hnone
      rw [← hrep]
      exact (hspec.2 h).2 hnone

/- ===== Concrete states and environments used by the witnesses ===== -/

def tplScripts : Json :=
  .obj [("dev", .str "peachy dev"), ("build", .str "peachy build")]

def tplManifest : Manifest :=
  [("name", .str "peachy"), ("version", .str "1.2.3"),
   ("keywords", .arr [.str "framework"]), ("author", .str "Sidmaz666"),
   ("scripts", tplScripts), ("dependencies", .obj [])]

def tplState : FSState :=
  { present := true
    entries := ["src", "package.json"]
    docs := true
    blog := true
    pkg := some tplManifest
    css := some .fromTemplate
    components := ["Button.js", "CodeBlock.js", "Footer.js", "Header.js",
                   "Peach3dModel.js"]
    layout := some ("import Header from c\nbody".toList)
    page := some .fromTemplate
    git := .fromTemplate
    nodeModules := false }

def fsAbsent : FSState :=
  { present := false, entries := [], docs := false, blog := false,
    pkg := none, css := none, components := [], layout := none,
    page := none, git := .absent, nodeModules := false }

def fsNonempty : FSState :=
  { fsAbsent with present := true, entries := ["file.txt"] }

def envAllOk : Env :=
  { resolve := fun s => s
    basename := fun s => s
    accessOk := true
    readdirOk := true
    cloneOk := true
    template := tplState
    cloneFailState := fsAbsent
    rmDocsOk := true
    rmBlogOk := true
    pkgWriteOk := true
    cssWriteOk := true
    unlinkOk := fun _ => true
    layoutReadOk := true
    layoutWriteOk := true
    pageWriteOk := true
    gitRmOk := true
    gitInitOk := true
    npmOk := true
    finalReadOk := true }

def envCloneRefused : Env :=
  { envAllOk with cloneOk := false, cloneFailState := fsNonempty }

def envCloneFails : Env :=
  { envAllOk with
    cloneOk := false
    cloneFailState := { fsAbsent with present := true } }

def envNoAccess : Env := { envAllOk with accessOk := false }

def envCustomFail : Env :=
  { envAllOk with
    cssWriteOk := false
    unlinkOk := fun _ => false
    layoutWriteOk := false
    pageWriteOk := false }

/-- Witness for C3: git refuses to clone into the non-empty directory and
    the run exits 1 leaving the state untouched. -/
theorem nonempty_target_no_mutation_witness :
    (runMain ["my-app"] envCloneRefused fsNonempty).outcome
        = .exited 1 fsNonempty
    ∧ ((runMain ["my-app"] envCloneRefused fsNonempty).trace = [.precheck]
        ∨ (runMain ["my-app"] envCloneRefused fsNonempty).trace
            = [.precheck, .clone])
    ∧ (envCloneRefused.accessOk = true → envCloneRefused.readdirOk = true →
        runMain ["my-app"] envCloneRefused fsNonempty
          = ⟨.exited 1 fsNonempty, [.precheck], [.dirNotEmpty]⟩) :=
  nonempty_target_no_mutation "my-app" [] envCloneRefused fsNonempty rfl
    (by decide) (fun h => absurd h (by decide)) rfl

/-- Witness for C8 at a concrete failing-clone environment. -/
theorem clone_failure_stops_pipeline_witness :
    runMain ["my-app"] envCloneFails fsAbsent
      = ⟨.exited 1 envCloneFails.cloneFailState, [.precheck, .clone],
         [.cloneFailed]⟩ :=
  clone_failure_stops_pipeline "my-app" [] envCloneFails fsAbsent
    (by decide) (by decide)

/-- Witness for C9: with a failing existence check over an existing
    directory, the run equals the run against an absent path. -/
theorem precheck_errors_swallowed_witness :
    runMain ["my-app"] envNoAccess fsNonempty
      = runMain ["my-app"] envNoAccess
          { fsNonempty with present := false, entries := [] }
    ∧ Step.clone ∈ (runMain ["my-app"] envNoAccess fsNonempty).trace
    ∧ Msg.dirNotEmpty ∉ (runMain ["my-app"] envNoAccess fsNonempty).msgs :=
  precheck_errors_swallowed "my-app" [] envNoAccess fsNonempty rfl
    (Or.inl rfl)

/-- Witness for C6 at an environment where all four customization
    sub-operations fail. -/
theorem customize_always_proceeds_witness :
    Msg.customizeSucceeded
        ∈ (runMain ["my-app"] envCustomFail fsAbsent).msgs
    ∧ Step.gitReset ∈ (runMain ["my-app"] envCustomFail fsAbsent).trace :=
  customize_always_proceeds "my-app" [] envCustomFail fsAbsent
    (by decide) rfl tplManifest rfl rfl

/-- Witness for C5 at the all-success environment. -/
theorem pruned_dirs_absent_witness :
    (runMain ["my-app"] envAllOk fsAbsent).outcome.isCompleted = true
    ∧ ((runMain ["my-app"] envAllOk fsAbsent).outcome.fsOf).docs = false
    ∧ ((runMain ["my-app"] envAllOk fsAbsent).outcome.fsOf).blog = false :=
  pruned_dirs_absent "my-app" [] envAllOk fsAbsent (Or.inl rfl) rfl rfl rfl
    tplManifest rfl rfl rfl rfl rfl

/-- Witness for C4: the reported scripts value equals the template
    manifest scripts value. -/
theorem scripts_never_mutated_witness :
    (runMain ["my-app"] envAllOk fsAbsent).outcome.isCompleted = true
    ∧ scriptsOf ((runMain ["my-app"] envAllOk fsAbsent).outcome.fsOf)
        = lookupKey "scripts" tplManifest
    ∧ scriptsOf ((runMain ["my-app"] envAllOk fsAbsent).outcome.fsOf)
        = some tplScripts :=
  scripts_never_mutated "my-app" [] envAllOk fsAbsent (by decide) rfl
    tplManifest rfl rfl rfl rfl rfl tplScripts rfl

/-- Witness for C7: with every fatal step succeeding the run completes. -/
theorem reporting_never_aborts_witness :
    (runMain ["my-app"] envAllOk fsAbsent).outcome.isCompleted = true :=
  (reporting_never_aborts "my-app" [] envAllOk fsAbsent (by decide) rfl
    tplManifest rfl rfl rfl rfl rfl).1

end Peachy
